import Mathlib

/-!
Verification of the glob-prime library (src/pattern.rs and src/glob.rs)
against its specification.

The Rust code is shallowly embedded:
* strings are `List Char`;
* machine integers (`uint`, pre-1.0 Rust, wrapping arithmetic) are `Nat`
  with explicit 2^64 wrapping where the source can underflow;
* a Rust panic (out-of-bounds index, `.unwrap()` on `Err`) is modelled by
  the `none` value of an outer `Option` layer;
* filesystem primitives (out of scope in the spec, §1/§6) are a record of
  pure response functions; a failing directory listing is `none`.

All definitions are executable, so concrete runs are settled by `decide`.
-/

set_option maxRecDepth 10000

instance {ε α : Type} [DecidableEq ε] [DecidableEq α] : DecidableEq (Except ε α) := fun x y =>
  match x, y with
  | .error a, .error b =>
    if h : a = b then isTrue (by rw [h]) else isFalse (fun hc => h (by injection hc))
  | .error _, .ok _ => isFalse (fun hc => Except.noConfusion hc)
  | .ok _, .error _ => isFalse (fun hc => Except.noConfusion hc)
  | .ok a, .ok b =>
    if h : a = b then isTrue (by rw [h]) else isFalse (fun hc => h (by injection hc))

/-! ## Data model of src/pattern.rs -/

/-- `CharSpecifier` from src/pattern.rs: a single character or an
inclusive character range of a bracket class. -/
inductive CharSpecifier where
  | singleChar : Char → CharSpecifier
  | charRange : Char → Char → CharSpecifier
deriving DecidableEq, Repr

/-- `Token` from src/pattern.rs. -/
inductive Token where
  | char : Char → Token
  | anyChar : Token
  | anySequence : Token
  | anyRecursiveSequence : Token
  | anyWithin : List CharSpecifier → Token
  | anyExcept : List CharSpecifier → Token
deriving DecidableEq, Repr

/-- `Error` from src/pattern.rs: a character position and a message. -/
structure Error where
  pos : Nat
  msg : String
deriving DecidableEq, Repr

/-- Message of the `count > 2` asterisk-run error (src/pattern.rs line 112). -/
def wildcardsMsg : String := "wildcards are either regular `*` or recursive `**`"

/-- Message of the misplaced-`**` errors (src/pattern.rs lines 135, 145). -/
def recursiveMsg : String :=
  "recursive wildcards `**` must form a single path component, e.g. a/**/b"

/-- Message of the unclosed-bracket error (src/pattern.rs line 193). -/
def invalidRangeMsg : String := "invalid range pattern"

/-! ## Regex model

`Pattern::compile` emits a regex string; we embed that string as a list of
regex elements, one per emitted fragment, and give the emitted dialect its
matching semantics below.  `escape_regex_char` and the backslash doubling in
`emit_set` only protect the literal character in the textual regex, so a
literal fragment is `RElem.lit c` regardless of escaping. -/

/-- One fragment of the regex emitted by `Pattern::compile`:
`lit c` (an escaped literal), `dot` (`.`), `seqStar` (`[^/]*`, `path::SEP`
being `/`), `recStar` (`.*`), `cls`/`negCls` (`[...]` / `[^...]`), and
`endAnchor` (the final `\z`).  The trailing `(?ms)` flags of the emitted
string scope over nothing (they stand at the very end), so `.` keeps its
default meaning of any character except a newline. -/
inductive RElem where
  | lit : Char → RElem
  | dot : RElem
  | seqStar : RElem
  | recStar : RElem
  | cls : List CharSpecifier → RElem
  | negCls : List CharSpecifier → RElem
  | endAnchor : RElem
deriving DecidableEq, Repr

/-- A character matches one `CharSpecifier` of a class body
(`Pattern::emit_set`: a single member matches itself, a range matches by
code point). -/
def specMatches (sp : CharSpecifier) (c : Char) : Bool :=
  match sp with
  | .singleChar a => c = a
  | .charRange a b => a ≤ c ∧ c ≤ b

/-- A character is matched by a class body. -/
def inClass (sps : List CharSpecifier) (c : Char) : Bool :=
  sps.any (fun sp => specMatches sp c)

/-- The regex fragment emitted for one `Token`
(`Pattern::compile`, match arms in source order). -/
def toRElem (t : Token) : RElem :=
  match t with
  | .char c => .lit c
  | .anyChar => .dot
  | .anySequence => .seqStar
  | .anyRecursiveSequence => .recStar
  | .anyWithin sps => .cls sps
  | .anyExcept sps => .negCls sps

/-- `Pattern::compile`: the token fragments followed by the `\z` end
anchor.  The regex-engine error path (`Regex::new` failing on a degenerate
class body) is not modelled; every pattern reaching it in this development
compiles, as witnessed by the library's own test suite. -/
def Pattern.compile (tokens : List Token) : List RElem :=
  tokens.map toRElem ++ [.endAnchor]

/-- The Kleene-star loop of `[^b]*`: try the rest of the regex at every
skip point, skipping only characters different from `b`. -/
def starLoop (next : List Char → Bool) (b : Char) : List Char → Bool
  | [] => next []
  | x :: xs => next (x :: xs) || ((x ≠ b : Bool) && starLoop next b xs)

/-- The emitted regex matches some prefix of `s` (standard unanchored
regex-match semantics; `endAnchor` additionally forces that prefix to be
all of `s`). -/
def pmatch : List RElem → List Char → Bool
  | [], _ => true
  | .endAnchor :: rs, s => s.isEmpty && pmatch rs s
  | .lit c :: rs, s =>
    match s with
    | [] => false
    | x :: xs => (c = x : Bool) && pmatch rs xs
  | .dot :: rs, s =>
    match s with
    | [] => false
    | x :: xs => (x ≠ '\n' : Bool) && pmatch rs xs
  | .cls sps :: rs, s =>
    match s with
    | [] => false
    | x :: xs => inClass sps x && pmatch rs xs
  | .negCls sps :: rs, s =>
    match s with
    | [] => false
    | x :: xs => !inClass sps x && pmatch rs xs
  | .seqStar :: rs, s => starLoop (pmatch rs) '/' s
  | .recStar :: rs, s => starLoop (pmatch rs) '\n' s

/-- `Regex::is_match`: the regex matches starting at some position of `s`,
i.e. at some suffix.  (The emitted regex carries no start anchor.) -/
def isMatch (re : List RElem) : List Char → Bool
  | [] => pmatch re []
  | x :: xs => pmatch re (x :: xs) || isMatch re xs

/-- `Pattern` from src/pattern.rs: the compiled regex and the original
pattern string. -/
structure Pattern where
  re : List RElem
  original : List Char
deriving DecidableEq, Repr

/-- `Pattern::matches`: delegate to the compiled regex. -/
def Pattern.matches (p : Pattern) (s : List Char) : Bool :=
  isMatch p.re s

/-- `Pattern::matches_path`: `path.as_str().map_or(false, |s| self.matches(s))`.
The argument is the result of `Path::as_str` — `none` when the path has no
string form (non-UTF-8 bytes). -/
def Pattern.matchesPath (p : Pattern) (s : Option (List Char)) : Bool :=
  match s with
  | none => false
  | some str => p.matches str

/-- `Pattern::escape`: wrap each of `? * [ ]` in a one-member bracket
class, leave every other character unchanged. -/
def Pattern.escape : List Char → List Char
  | [] => []
  | c :: rest =>
    (if c = '?' ∨ c = '*' ∨ c = '[' ∨ c = ']' then ['[', c, ']'] else [c])
      ++ Pattern.escape rest

/-! ## The tokenizer `Pattern::parse` -/

/-- `Pattern::parse_character_class`: scan left to right; with at least
three characters left and a `-` in the middle emit a range, else a
singleton. -/
def parseCharacterClass : List Char → List CharSpecifier
  | a :: b :: c :: rest =>
    if b = '-' then .charRange a c :: parseCharacterClass rest
    else .singleChar a :: parseCharacterClass (b :: c :: rest)
  | a :: rest => .singleChar a :: parseCharacterClass rest
  | [] => []

/-- Wrapping subtraction of pre-1.0 Rust `uint` (modelled at 64 bits): for
`b ≤ a` ordinary subtraction, otherwise the underflow wraps to a huge
value.  `Pattern::parse` computes `chars.len() - 4` and `chars.len() - 3`
with it. -/
def wsub (a b : Nat) : Nat :=
  if b ≤ a then a - b else 2 ^ 64 + a - b

/-- The `**`-collapse push (src/pattern.rs lines 151-158): push an
any-recursive-sequence token unless `tokens_len > 1` and the last token is
already one.  (The guard is `> 1`, not `≥ 1`.) -/
def pushRecursive (toks : List Token) : List Token :=
  if 1 < toks.length ∧ toks.getLast? = some .anyRecursiveSequence then toks
  else toks ++ [.anyRecursiveSequence]

/-- The `while i < chars.len()` loop of `Pattern::parse`, one recursive
call per loop iteration.  `fuel` only bounds the iteration count (the
entry point supplies more than the loop can consume); `none` models a
Rust panic: an out-of-bounds `chars[i + 1]` or `chars.slice_from(..)`,
both reachable because the wrapping guards `i <= chars.len() - 4` and
`i <= chars.len() - 3` hold vacuously on short inputs. -/
def parseGo (chars : List Char) : Nat → Nat → List Token → Option (Except Error (List Token))
  | 0, _, _ => none
  | fuel + 1, i, toks =>
    match chars.get? i with
    | none => some (.ok toks)
    | some c =>
      if c = '?' then parseGo chars fuel (i + 1) (toks ++ [.anyChar])
      else if c = '*' then
        -- `while i < chars.len() && chars[i] == '*' { i += 1; }`
        let n := ((chars.drop i).takeWhile (fun x => x = '*')).length
        let e := i + n
        if 2 < n then some (.error ⟨i + 2, wildcardsMsg⟩)
        else if n = 2 then
          -- `if i == 2 || chars[i - count - 1] == '/'`; the index `i - 1`
          -- is only evaluated when the first disjunct fails, hence `1 ≤ i`
          if e = 2 ∨ chars.get? (i - 1) = some '/' then
            match chars.get? e with
            | some d =>
              if d = '/' then parseGo chars fuel (e + 1) (pushRecursive toks)
              else some (.error ⟨e, recursiveMsg⟩)
            | none => parseGo chars fuel e (pushRecursive toks)
          else some (.error ⟨i - 1, recursiveMsg⟩)
        else parseGo chars fuel e (toks ++ [.anySequence])
      else if c = '[' then
        let len := chars.length
        match chars.get? (i + 1) with
        | none =>
          -- `chars[i + 1]` is evaluated as soon as one of the two range
          -- guards holds; out of bounds it panics
          if i ≤ wsub len 4 ∨ i ≤ wsub len 3 then none
          else some (.error ⟨i, invalidRangeMsg⟩)
        | some c1 =>
          if i ≤ wsub len 4 ∧ c1 = '!' then
            if i + 3 ≤ len then
              match (chars.drop (i + 3)).findIdx? (fun x => x = ']') with
              | some j =>
                parseGo chars fuel (i + j + 4)
                  (toks ++ [.anyExcept (parseCharacterClass ((chars.drop (i + 2)).take (j + 1)))])
              | none => some (.error ⟨i, invalidRangeMsg⟩)
            else none  -- `chars.slice_from(i + 3)` is out of range: panic
          else if i ≤ wsub len 3 ∧ c1 ≠ '!' then
            if i + 2 ≤ len then
              match (chars.drop (i + 2)).findIdx? (fun x => x = ']') with
              | some j =>
                parseGo chars fuel (i + j + 3)
                  (toks ++ [.anyWithin (parseCharacterClass ((chars.drop (i + 1)).take (j + 1)))])
              | none => some (.error ⟨i, invalidRangeMsg⟩)
            else none
          else some (.error ⟨i, invalidRangeMsg⟩)
      else parseGo chars fuel (i + 1) (toks ++ [.char c])

/-- `Pattern::parse`.  Each loop iteration advances `i` by at least one,
so `chars.length + 1` iterations always suffice. -/
def Pattern.parse (chars : List Char) : Option (Except Error (List Token)) :=
  parseGo chars (chars.length + 1) 0 []

/-- `Pattern::new`: parse, compile, and keep the original string. -/
def Pattern.new (chars : List Char) : Option (Except Error Pattern) :=
  match Pattern.parse chars with
  | none => none
  | some (.error e) => some (.error e)
  | some (.ok toks) => some (.ok ⟨Pattern.compile toks, chars⟩)

/-! ## Data model of src/glob.rs

Paths and the filesystem are out-of-scope collaborators (spec §1, §6);
they are modelled from the interface the spec describes and from the
behaviour pinned down by the library's own test suite. -/

/-- Modelled from the spec: a filesystem path of the pre-1.0 Rust `Path`
type (posix flavour), kept in the normal form that type maintains: an
absolute flag and the list of components, with no `.` components and `..`
only at the front of a relative path.  The empty relative path renders as
`.`, the empty absolute path as `/`. -/
structure GPath where
  abs : Bool
  comps : List (List Char)
deriving DecidableEq, Repr

/-- Modelled from the spec: `Path::join` with one component, with the
normalization of the pre-1.0 `Path` type: `.` and the empty component are
dropped, `..` removes the last component when one is there to remove
(witnessed by the repository test `aaa/../bbb` yielding `bbb`), stays `/`
at an absolute root, and otherwise accumulates. -/
def GPath.join (p : GPath) (comp : List Char) : GPath :=
  if comp = [] then p
  else if comp = ['.'] then p
  else if comp = ['.', '.'] then
    match p.comps.getLast? with
    | none => if p.abs then p else ⟨false, [['.', '.']]⟩
    | some last =>
      if last = ['.', '.'] then ⟨p.abs, p.comps ++ [comp]⟩
      else ⟨p.abs, p.comps.dropLast⟩
  else ⟨p.abs, p.comps ++ [comp]⟩

/-- Modelled from the spec: the string form of a path (`Path::as_str`).
Every path built in this development is valid UTF-8, so the glob engine
always receives `some` of this rendering. -/
def GPath.render (p : GPath) : List Char :=
  if p.abs then '/' :: (List.intercalate ['/'] p.comps)
  else if p.comps = [] then ['.']
  else List.intercalate ['/'] p.comps

/-- `Path::as_str` of a path built by the engine: always a string. -/
def GPath.asStr (p : GPath) : Option (List Char) :=
  some p.render

/-- Modelled from the spec: the filesystem interface the engine consumes
(spec §6): list a directory (may fail: `none` is an I/O error), test for a
directory, test for existence.  The functions are pure, modelling fixed
filesystem responses. -/
structure Fs where
  isDir : GPath → Bool
  pathExists : GPath → Bool
  readdir : GPath → Option (List GPath)

/-- `Directories` from src/glob.rs: the depth-first walker state, a stack
of paths.  `Vec::pop` takes the last element and `extend` appends. -/
structure Directories where
  stack : List GPath
deriving DecidableEq, Repr

/-- `impl Iterator for Directories`: pop the top path; if its listing
succeeds push the sub-directories, a failed listing pushes nothing
(`Err(..) => {}`); yield the popped path either way. -/
def Directories.next (fs : Fs) (d : Directories) : Option GPath × Directories :=
  match d.stack.getLast? with
  | none => (none, d)
  | some path =>
    let popped := d.stack.dropLast
    let newStack :=
      match fs.readdir path with
      | some entries => popped ++ entries.filter fs.isDir
      | none => popped
    (some path, ⟨newStack⟩)

/-- `walk_dir`: a walker whose stack holds just the root (its `IoResult`
is always `Ok`, so the `unwrap` in the Recursive arm cannot panic). -/
def walkDir (path : GPath) : Directories := ⟨[path]⟩

/-- `Peekable<Path, Directories>` (2014 std): the wrapped iterator and the
peeked element, if one is buffered. -/
structure Peekable where
  iter : Directories
  peeked : Option GPath
deriving DecidableEq, Repr

/-- `Peekable::peek`: buffer the underlying `next` when nothing is
buffered; a `none` result is not distinguishable from an empty buffer,
exactly as in the 2014 implementation. -/
def Peekable.peek (fs : Fs) (p : Peekable) : Option GPath × Peekable :=
  match p.peeked with
  | some x => (some x, p)
  | none =>
    let r := Directories.next fs p.iter
    (r.1, ⟨r.2, r.1⟩)

/-- `Peekable::next`: take the buffered element if there is one. -/
def Peekable.next (fs : Fs) (p : Peekable) : Option GPath × Peekable :=
  match p.peeked with
  | some x => (some x, ⟨p.iter, none⟩)
  | none =>
    let r := Directories.next fs p.iter
    (r.1, ⟨r.2, none⟩)

/-- `Selector` from src/glob.rs: the chain of per-component selectors with
their embedded book-keeping state. -/
inductive Selector where
  | precise : List Char → Selector → Selector
  | wildcard : Pattern → Selector → Option (List GPath) → Selector
  | recursive : Selector → Option Peekable → Selector
  | terminating : Bool → Selector
deriving DecidableEq, Repr

/-- `Selector::is_terminating`. -/
def Selector.isTerminating : Selector → Bool
  | .terminating _ => true
  | _ => false

/-- The result of `Selector::select_from` on a mutable selector: either a
Rust panic, or the returned `Option<Path>` together with the selector's
state after the call. -/
inductive StepRes where
  | panic : StepRes
  | ok : Option GPath → Selector → StepRes
deriving DecidableEq, Repr

/-- `Selector::select_from`.  The Rust method mutates `self`; here the
post-state is returned.  The `while let` loop of the Wildcard arm and the
`loop` of the Recursive arm are expressed by re-entering the same node
with its book-keeping updated — the re-executed `path.is_dir()` guard and
`take()` are pure and give the same results, so the behaviour is
unchanged.  `fuel` decreases once per call and per loop iteration and is
an artifact of the embedding (the entry points hand in more than any
terminating run consumes); `panic` models the `readdir(path).unwrap()`
panic of the Wildcard arm on a failed listing. -/
def Selector.selectFrom (fs : Fs) : Nat → Selector → GPath → Bool → StepRes
  | 0, _, _, _ => .panic
  | fuel + 1, s, path, isDir =>
    match s with
    | .precise pattern successor =>
      let joined := path.join pattern
      if fs.isDir path && fs.pathExists joined then
        match Selector.selectFrom fs fuel successor joined isDir with
        | .panic => .panic
        | .ok r succ => .ok r (.precise pattern succ)
      else .ok none (.precise pattern successor)
    | .wildcard pattern successor entries =>
      if !fs.isDir path then .ok none (.wildcard pattern successor entries)
      else
        -- `entries.take().unwrap_or_else(|| readdir(path).unwrap())`
        match (match entries with | some e => some e | none => fs.readdir path) with
        | none => .panic
        | some ents =>
          match ents.getLast? with
          | none => .ok none (.wildcard pattern successor none)
          | some entry =>
            let rest := ents.dropLast
            if !pattern.matchesPath entry.asStr then
              Selector.selectFrom fs fuel (.wildcard pattern successor (some rest)) path isDir
            else if successor.isTerminating then
              if isDir && !fs.isDir entry then .ok none (.wildcard pattern successor none)
              else .ok (some entry) (.wildcard pattern successor (some rest))
            else
              match Selector.selectFrom fs fuel successor entry isDir with
              | .panic => .panic
              | .ok none succ =>
                Selector.selectFrom fs fuel (.wildcard pattern succ (some rest)) path isDir
              | .ok (some m) succ =>
                .ok (some m) (.wildcard pattern succ (some (rest ++ [entry])))
    | .recursive successor directories =>
      if !fs.isDir path then .ok none (.recursive successor directories)
      else
        -- `directories.take().unwrap_or_else(|| walk_dir(path).unwrap().peekable())`
        let dirs :=
          match directories with
          | some w => w
          | none => ⟨walkDir path, none⟩
        let pk := Peekable.peek fs dirs
        match pk.1 with
        | none => .ok none (.recursive successor none)
        | some peeked =>
          if successor.isTerminating then
            let nx := Peekable.next fs pk.2
            .ok nx.1 (.recursive successor (some nx.2))
          else
            match Selector.selectFrom fs fuel successor peeked isDir with
            | .panic => .panic
            | .ok none succ =>
              let nx := Peekable.next fs pk.2
              Selector.selectFrom fs fuel (.recursive succ (some nx.2)) path isDir
            | .ok (some m) succ => .ok (some m) (.recursive succ (some pk.2))
    | .terminating terminated =>
      if terminated then .ok none (.terminating false)
      else
        if !isDir || (isDir && fs.isDir path) then .ok (some path) (.terminating true)
        else .ok none (.terminating true)

/-! ## The selector builder and the glob facade -/

/-- The `WILDCARD` regex `[[*?]`: the component contains `[`, `*` or `?`. -/
def containsWildcard (s : List Char) : Bool :=
  s.any (fun c => c = '[' ∨ c = '*' ∨ c = '?')

/-- `Selector::from_components`: build the chain right to left, ending in
`Terminating { terminated: false }`. -/
def Selector.fromComponents : List (List Char) → Option (Except Error Selector)
  | [] => some (.ok (.terminating false))
  | pattern :: rest =>
    if pattern = ['*', '*'] then
      match Selector.fromComponents rest with
      | none => none
      | some (.error e) => some (.error e)
      | some (.ok succ) => some (.ok (.recursive succ none))
    else if containsWildcard pattern then
      match Pattern.new pattern with
      | none => none
      | some (.error e) => some (.error e)
      | some (.ok compiled) =>
        match Selector.fromComponents rest with
        | none => none
        | some (.error e) => some (.error e)
        | some (.ok succ) => some (.ok (.wildcard compiled succ none))
    else
      match Selector.fromComponents rest with
      | none => none
      | some (.error e) => some (.error e)
      | some (.ok succ) => some (.ok (.precise pattern succ))

/-- `str::split(is_sep)` with `is_sep` being `/` (posix): the pieces
between separators, empty pieces included (`""` splits to one empty
piece). -/
def splitSep : List Char → List (List Char)
  | [] => [[]]
  | c :: rest =>
    if c = '/' then [] :: splitSep rest
    else
      match splitSep rest with
      | [] => [[c]]
      | h :: t => (c :: h) :: t

/-- The consecutive-`**` collapse loop of `Selector::from_pattern`. -/
def collapseRecursive : Bool → List (List Char) → List (List Char)
  | _, [] => []
  | wasRecursive, c :: rest =>
    if c = ['*', '*'] then
      if wasRecursive then collapseRecursive true rest
      else c :: collapseRecursive true rest
    else c :: collapseRecursive false rest

/-- `Selector::from_pattern`: validate the whole pattern with
`Pattern::new`, split on the separator, collapse consecutive `**`
components, and build the chain. -/
def Selector.fromPattern (pattern : List Char) : Option (Except Error Selector) :=
  match Pattern.new pattern with
  | none => none
  | some (.error e) => some (.error e)
  | some (.ok _) =>
    Selector.fromComponents (collapseRecursive false (splitSep pattern))

/-- `Paths` from src/glob.rs: scope, selector chain, directory-only flag. -/
structure Paths where
  scope : GPath
  selector : Selector
  isDir : Bool
deriving DecidableEq, Repr

/-- `glob` (posix branch: no verbatim or volume-relative handling): the
root is `/` exactly when the pattern starts with a separator and its byte
length is 1; the scope defaults to `.`; the directory-only flag records a
trailing separator. -/
def glob (pattern : List Char) : Option (Except Error Paths) :=
  let root : Option GPath := if pattern.head? = some '/' then some ⟨true, []⟩ else none
  let rootLen : Nat := match root with | some _ => 1 | none => 0
  let scope := match root with | some r => r | none => ⟨false, []⟩
  let trimmed := pattern.drop (min rootLen pattern.length)
  match Selector.fromPattern trimmed with
  | none => none
  | some (.error e) => some (.error e)
  | some (.ok selector) =>
    some (.ok ⟨scope, selector, pattern.getLast? = some '/'⟩)

/-- `impl Iterator for Paths::next`: drive the chain head with the scope
path; `none` is a panic, otherwise the yielded item and the Paths object
after the call. -/
def Paths.next (fs : Fs) (fuel : Nat) (p : Paths) : Option (Option GPath × Paths) :=
  match Selector.selectFrom fs fuel p.selector p.scope p.isDir with
  | .panic => none
  | .ok r s => some (r, ⟨p.scope, s, p.isDir⟩)

/-! ## Iteration drivers (observation of `Paths` as an iterator) -/

/-- The results of `calls` successive `next` calls (`none` if a call
panics). -/
def callResults (fs : Fs) (fuel : Nat) : Nat → Paths → Option (List (Option GPath))
  | 0, _ => some []
  | calls + 1, p =>
    match Paths.next fs fuel p with
    | none => none
    | some (r, p1) =>
      match callResults fs fuel calls p1 with
      | none => none
      | some rs => some (r :: rs)

/-- The paths yielded up to the first end-of-stream `none`, observed
within `calls` calls (`none` when a call panics or `calls` runs out
first). -/
def collectPaths (fs : Fs) (fuel : Nat) : Nat → Paths → Option (List GPath)
  | 0, _ => none
  | calls + 1, p =>
    match Paths.next fs fuel p with
    | none => none
    | some (none, _) => some []
    | some (some m, p1) =>
      match collectPaths fs fuel calls p1 with
      | none => none
      | some ms => some (m :: ms)

/-! ## Auxiliary definitions used by the theorems -/

/-- Modelled from the spec: "the entire string s (from its first character
to its last) satisfies the pattern" — the compiled regex consumes all of
`s` from its very start.  (With the `\z` anchor last, a `pmatch` of the
whole regex is exactly such a whole-string match.) -/
def matchesEntire (p : Pattern) (s : List Char) : Bool :=
  pmatch p.re s

/-- The token `Pattern::parse` produces for one character of an escaped
string: a one-member class for the wrapped `? * [ ]`, a literal
otherwise. -/
def escTokenOf (c : Char) : Token :=
  if c = '?' ∨ c = '*' ∨ c = '[' ∨ c = ']' then .anyWithin [.singleChar c] else .char c

/-- A chain of Precise selectors over the given literals, ended by the
terminator — the selector `Selector::from_components` builds for a list of
wildcard-free components. -/
def chainOf (lits : List (List Char)) : Selector :=
  lits.foldr .precise (.terminating false)

/-- Scan a reversed entry list for the first element matching the
pattern; returns the part below it (in original order) and the element.
This is the value `select_from`'s Wildcard pop loop settles on. -/
def popGo (pat : Pattern) : List GPath → Option (List GPath × GPath)
  | [] => none
  | x :: r => if pat.matchesPath x.asStr then some (r.reverse, x) else popGo pat r

/-- The last entry of `ents` matching `pat`, together with the entries
before it. -/
def popMatch (pat : Pattern) (ents : List GPath) : Option (List GPath × GPath) :=
  popGo pat ents.reverse

/-! ## Concrete fixtures for the closed counterexamples and witnesses -/

/-- The scope path `.`. -/
def rootP : GPath := ⟨false, []⟩

/-- The path `a`. -/
def aP : GPath := ⟨false, [['a']]⟩

/-- The path `b`. -/
def bP : GPath := ⟨false, [['b']]⟩

/-- The path `c`. -/
def cP : GPath := ⟨false, [['c']]⟩

/-- The path `d`. -/
def dP : GPath := ⟨false, [['d']]⟩

/-- The path `f`. -/
def fP : GPath := ⟨false, [['f']]⟩

/-- A filesystem whose root `.` is a directory, `a` exists, and every
listing is empty. -/
def fs1 : Fs :=
  ⟨fun p => decide (p = rootP), fun p => decide (p = rootP ∨ p = aP), fun _ => some []⟩

/-- A filesystem whose root `.` holds a directory `d` and a plain file
`f`. -/
def fs2 : Fs :=
  ⟨fun p => decide (p = rootP ∨ p = dP), fun p => decide (p = rootP ∨ p = dP ∨ p = fP),
   fun p => if p = rootP then some [dP, fP] else some []⟩

/-- A filesystem whose root `.` is a directory but every listing fails
with an I/O error (e.g. permission denied). -/
def fs3 : Fs := ⟨fun p => decide (p = rootP), fun p => decide (p = rootP), fun _ => none⟩

/-- A filesystem whose root `.` holds directories `a` and `b` and a plain
file `c`. -/
def fs4 : Fs :=
  ⟨fun p => decide (p = rootP ∨ p = aP ∨ p = bP),
   fun p => decide (p = rootP ∨ p = aP ∨ p = bP ∨ p = cP),
   fun p => if p = rootP then some [aP, bP, cP] else some []⟩

/-- A filesystem whose root `.` holds the single directory `a`. -/
def fs5 : Fs :=
  ⟨fun p => decide (p = rootP ∨ p = aP), fun p => decide (p = rootP ∨ p = aP),
   fun p => if p = rootP then some [aP] else some []⟩

/-- The compiled pattern `*`. -/
def starPat : Pattern := ⟨[.seqStar, .endAnchor], ['*']⟩

/-- The compiled pattern `b`. -/
def bPat : Pattern := ⟨[.lit 'b', .endAnchor], ['b']⟩

/-- The selector chain `glob` builds for the pattern `*/../c`. -/
def dupSelector : Selector :=
  .wildcard starPat (.precise ['.', '.'] (.precise ['c'] (.terminating false))) none

/-! ## Closed evaluations settling claims C1-C8 (counterexamples) and C5/C7 -/

/-- C1 counterexample.  The claim says that once `next` returns none every
subsequent call returns none.  On the pattern `a` over a filesystem where
`.` is a directory and `a` exists, three successive `next` calls return
some `a`, none, some `a`: the call after the first end-of-stream yields a
path again, because `Terminating` re-arms its toggle. -/
theorem c1_counterexample :
    (glob ['a'] = some (.ok ⟨rootP, .precise ['a'] (.terminating false), false⟩)) ∧
    callResults fs1 10 3 ⟨rootP, .precise ['a'] (.terminating false), false⟩
      = some [some aP, none, some aP] := by decide

/-- C2 counterexample.  The claim says a matching non-directory entry is
skipped and later matching entries of the same directory can still be
returned.  With `dir_only` set, a Wildcard whose successor is Terminating,
and a root listing `[d, f]` (`d` a directory, `f` a file, both matching
`*`, `f` popped first), the call returns none immediately and the next
call returns none again: the directory `d` is never yielded. -/
theorem c2_counterexample :
    callResults fs2 10 2 ⟨rootP, .wildcard starPat (.terminating false) none, true⟩
      = some [none, none] ∧
    fs2.readdir rootP = some [dP, fP] ∧ fs2.isDir dP = true ∧ fs2.isDir fP = false ∧
    starPat.matchesPath dP.asStr = true ∧ starPat.matchesPath fP.asStr = true := by decide

/-- C3 counterexample.  The claim says a failed directory listing is
treated as an empty listing and `next` never raises.  For the pattern `*`
over a filesystem whose root is a directory whose listing fails, `next`
panics (the Wildcard arm's `readdir(path).unwrap()`), modelled as `none`,
instead of returning end-of-stream. -/
theorem c3_counterexample :
    (glob ['*'] = some (.ok ⟨rootP, .wildcard starPat (.terminating false) none, false⟩)) ∧
    Paths.next fs3 10 ⟨rootP, .wildcard starPat (.terminating false) none, false⟩ = none ∧
    fs3.isDir rootP = true ∧ fs3.readdir rootP = none := by decide

/-- C4 counterexample.  The claim says `matches` is true only if the
entire string satisfies the pattern.  The pattern `b` matches the string
`ab` (the compiled regex has no start anchor, so the proper suffix `b`
suffices), yet `ab` does not satisfy the pattern as a whole. -/
theorem c4_counterexample :
    (Pattern.new ['b'] = some (.ok bPat)) ∧
    bPat.matches ['a', 'b'] = true ∧
    matchesEntire bPat ['a', 'b'] = false := by decide

/-- C5: the failing input.  Parsing `**/**` yields two adjacent
any-recursive-sequence tokens: the collapse guard `tokens_len > 1` does
not fire when the first `**` was the very first token, contradicting the
collapse the claim (and the code's own comment) states. -/
theorem c5_adjacent_recursive_tokens :
    Pattern.parse "**/**".toList
      = some (.ok [.anyRecursiveSequence, .anyRecursiveSequence]) := by decide

/-- C6 counterexample.  The claim says `Pattern::new "ab["` (and `"["`)
return the structured "invalid range pattern" error at the offset of `[`.
Instead both panic (modelled `none`): with fewer than 4 characters the
guard `i <= chars.len() - 4` underflows and holds vacuously, and
`chars[i + 1]` is then indexed out of bounds. -/
theorem c6_counterexample :
    Pattern.new "ab[".toList = none ∧ Pattern.new ['['] = none := by decide

/-- C7: `Pattern::new` reports the four syntax errors of the claim at
exactly the stated 0-based offsets (with the source's messages). -/
theorem c7_error_positions :
    (Pattern.new "a/**b".toList = some (.error ⟨4, recursiveMsg⟩)) ∧
    (Pattern.new "a/bc**".toList = some (.error ⟨3, recursiveMsg⟩)) ∧
    (Pattern.new "a/*****".toList = some (.error ⟨4, wildcardsMsg⟩)) ∧
    (Pattern.new "a/b**c**d".toList = some (.error ⟨2, recursiveMsg⟩)) := by decide

/-- C8 counterexample.  The claim says the paths yielded up to the first
end-of-stream contain no duplicates, for every pattern and tree.  For the
pattern `*/../c` over a root holding directories `a` and `b` and a file
`c`, the iterator yields `c` twice before the first none: each directory
entry reaches the same path `c` through `..`. -/
theorem c8_counterexample :
    (glob "*/../c".toList = some (.ok ⟨rootP, dupSelector, false⟩)) ∧
    collectPaths fs4 10 5 ⟨rootP, dupSelector, false⟩ = some [cP, cP] ∧
    ¬ ([cP, cP].Nodup) := by decide

/-- C10: `Pattern::matches_path` returns false (without erroring or
matching) whenever the path has no string form. -/
theorem c10_matches_path_none (p : Pattern) : p.matchesPath none = false := rfl

/-! ## General lemmas about the embedding -/

theorem isMatch_iff_suffix (re : List RElem) (s : List Char) :
    isMatch re s = true ↔ ∃ i, pmatch re (s.drop i) = true := by
  induction s with
  | nil =>
    simp only [isMatch]
    constructor
    · intro h
      exact ⟨0, h⟩
    · rintro ⟨i, h⟩
      simpa [List.drop_nil] using h
  | cons x xs ih =>
    simp only [isMatch, Bool.or_eq_true, ih]
    constructor
    · rintro (h | ⟨i, h⟩)
      · exact ⟨0, h⟩
      · exact ⟨i + 1, by simpa using h⟩
    · rintro ⟨i, h⟩
      cases i with
      | zero => exact Or.inl h
      | succ j => exact Or.inr ⟨j, by simpa using h⟩

theorem dropCons (chars : List Char) (i : Nat) (a : Char) (t : List Char)
    (h : chars.drop i = a :: t) :
    chars.get? i = some a ∧ chars.drop (i + 1) = t := by
  constructor
  · have hg := List.get?_drop chars i 0
    rw [h] at hg
    simpa using hg.symm
  · have hd := List.drop_drop 1 i chars
    rw [h] at hd
    simpa [Nat.add_comm] using hd.symm

theorem get?_lt (l : List Char) (i : Nat) (a : Char) (h : l.get? i = some a) :
    i < l.length := by
  by_contra hcon
  rw [List.get?_eq_none.mpr (by omega)] at h
  exact Option.noConfusion h

theorem escape_length (s : List Char) : s.length ≤ (Pattern.escape s).length := by
  induction s with
  | nil => simp [Pattern.escape]
  | cons c s' ih =>
    by_cases hsp : c = '?' ∨ c = '*' ∨ c = '[' ∨ c = ']'
    · simp [Pattern.escape, hsp]
      omega
    · simp [Pattern.escape, hsp]
      omega

/-- Running `Pattern::parse` over an escaped string from position `i`
produces exactly one token per original character: a one-member class for
the wrapped specials, a literal otherwise. -/
theorem escape_parse (s : List Char) :
    ∀ (f i : Nat) (chars : List Char) (toks : List Token),
    chars.drop i = Pattern.escape s → i ≤ chars.length → s.length < f →
    parseGo chars f i toks = some (.ok (toks ++ s.map escTokenOf)) := by
  induction s with
  | nil =>
    intro f i chars toks hdrop hle hf
    cases f with
    | zero => omega
    | succ f' =>
      have hnil : chars.drop i = [] := by simpa [Pattern.escape] using hdrop
      have hlen : chars.length ≤ i := List.drop_eq_nil_iff.mp hnil
      simp only [parseGo]
      rw [List.get?_eq_none.mpr hlen]
      simp
  | cons c s' ih =>
    intro f i chars toks hdrop hle hf
    cases f with
    | zero => omega
    | succ f' =>
      by_cases hsp : c = '?' ∨ c = '*' ∨ c = '[' ∨ c = ']'
      · rw [show Pattern.escape (c :: s') = '[' :: c :: ']' :: Pattern.escape s' from by
          simp [Pattern.escape, hsp]] at hdrop
        obtain ⟨hg0, hd1⟩ := dropCons _ _ _ _ hdrop
        obtain ⟨hg1, hd2⟩ := dropCons _ _ _ _ hd1
        obtain ⟨hg2, hd3⟩ := dropCons _ _ _ _ hd2
        rw [show i + 1 + 1 = i + 2 from by omega] at hg2 hd2
        rw [show i + 1 + 1 + 1 = i + 3 from by omega] at hd3
        have hi2 : i + 2 < chars.length := get?_lt _ _ _ hg2
        have hcne : c ≠ '!' := by rcases hsp with rfl | rfl | rfl | rfl <;> decide
        have hw3 : i ≤ wsub chars.length 3 := by
          rw [wsub, if_pos (by omega)]
          omega
        have hrec := ih f' (i + 3) chars (toks ++ [.anyWithin [.singleChar c]])
          hd3 (by omega) (by simp at hf; omega)
        simp only [parseGo]
        rw [hg0]
        simp only [reduceIte, reduceCtorEq]
        rw [hg1]
        simp [hcne, hw3, show i + 2 ≤ chars.length from by omega, hd2, hd1,
          List.findIdx?_cons, parseCharacterClass, hrec, escTokenOf, hsp,
          List.append_assoc]
      · have hne1 : c ≠ '?' := fun hc => hsp (Or.inl hc)
        have hne2 : c ≠ '*' := fun hc => hsp (Or.inr (Or.inl hc))
        have hne3 : c ≠ '[' := fun hc => hsp (Or.inr (Or.inr (Or.inl hc)))
        have hne4 : c ≠ ']' := fun hc => hsp (Or.inr (Or.inr (Or.inr hc)))
        rw [show Pattern.escape (c :: s') = c :: Pattern.escape s' from by
          simp [Pattern.escape, hsp]] at hdrop
        obtain ⟨hg0, hd1⟩ := dropCons _ _ _ _ hdrop
        have hi : i < chars.length := get?_lt _ _ _ hg0
        have hrec := ih f' (i + 1) chars (toks ++ [.char c]) hd1 (by omega)
          (by simp at hf; omega)
        simp only [parseGo]
        rw [hg0]
        simp [hne1, hne2, hne3, hne4, hrec, escTokenOf, hsp, List.append_assoc]

theorem escape_pmatch (s : List Char) :
    pmatch (Pattern.compile (s.map escTokenOf)) s = true := by
  induction s with
  | nil => decide
  | cons c s' ih =>
    have hcomp : Pattern.compile ((c :: s').map escTokenOf)
        = toRElem (escTokenOf c) :: Pattern.compile (s'.map escTokenOf) := by
      simp [Pattern.compile]
    rw [hcomp]
    by_cases hsp : c = '?' ∨ c = '*' ∨ c = '[' ∨ c = ']'
    · rw [show escTokenOf c = .anyWithin [.singleChar c] from by simp [escTokenOf, hsp]]
      simp [toRElem, pmatch, inClass, specMatches, ih]
    · rw [show escTokenOf c = .char c from by simp [escTokenOf, hsp]]
      simp [toRElem, pmatch, ih]

theorem pmatch_isMatch (re : List RElem) (s : List Char) (h : pmatch re s = true) :
    isMatch re s = true := by
  cases s with
  | nil => simpa [isMatch] using h
  | cons x xs => simp [isMatch, h]

theorem chainOf_nil : chainOf [] = .terminating false := rfl

theorem chainOf_cons (lit : List Char) (rest : List (List Char)) :
    chainOf (lit :: rest) = .precise lit (chainOf rest) := rfl

/-- Two successive `select_from` calls on a chain of Precise selectors
return the chain to its initial state: the first call reaches the
terminator and arms its toggle, the second disarms it. -/
theorem precise_two_calls (lits : List (List Char)) (fs : Fs) :
    ∀ (f : Nat) (path : GPath) (d : Bool), lits.length < f →
    ∃ r₁ s₁ r₂, Selector.selectFrom fs f (chainOf lits) path d = .ok r₁ s₁ ∧
      Selector.selectFrom fs f s₁ path d = .ok r₂ (chainOf lits) := by
  induction lits with
  | nil =>
    intro f path d hf
    cases f with
    | zero => omega
    | succ f' =>
      by_cases hc : (!d || (d && fs.isDir path)) = true
      · exact ⟨some path, .terminating true, none,
          by simp [chainOf_nil, Selector.selectFrom, hc],
          by simp [chainOf_nil, Selector.selectFrom]⟩
      · exact ⟨none, .terminating true, none,
          by simp [chainOf_nil, Selector.selectFrom, hc],
          by simp [chainOf_nil, Selector.selectFrom]⟩
  | cons lit rest ih =>
    intro f path d hf
    cases f with
    | zero => omega
    | succ f' =>
      by_cases hg : (fs.isDir path && fs.pathExists (path.join lit)) = true
      · obtain ⟨r₁, s₁, r₂, h1, h2⟩ := ih f' (path.join lit) d (by simp at hf ⊢; omega)
        refine ⟨r₁, .precise lit s₁, r₂, ?_, ?_⟩
        · rw [chainOf_cons]
          simp [Selector.selectFrom, hg, h1]
        · rw [chainOf_cons]
          simp [Selector.selectFrom, hg, h2]
      · refine ⟨none, chainOf (lit :: rest), none, ?_, ?_⟩
        · rw [chainOf_cons]
          simp [Selector.selectFrom, hg]
        · rw [chainOf_cons]
          simp [Selector.selectFrom, hg]

theorem popGo_none_all (pat : Pattern) (r : List GPath) (h : popGo pat r = none) :
    ∀ x ∈ r, pat.matchesPath x.asStr = false := by
  induction r with
  | nil => intro x hx; cases hx
  | cons y r' ih =>
    intro x hx
    simp only [popGo] at h
    by_cases hm : pat.matchesPath y.asStr = true
    · rw [if_pos hm] at h; exact Option.noConfusion h
    · rw [if_neg hm] at h
      rcases List.mem_cons.mp hx with rfl | hx'
      · simpa using hm
      · exact ih h x hx'

theorem popGo_some (pat : Pattern) (r : List GPath) :
    ∀ pre m, popGo pat r = some (pre, m) →
    ((r.reverse.filter (fun e => pat.matchesPath e.asStr)).reverse
        = m :: (pre.filter (fun e => pat.matchesPath e.asStr)).reverse)
    ∧ pre.length < r.length := by
  induction r with
  | nil => intro pre m h; simp [popGo] at h
  | cons y r' ih =>
    intro pre m h
    simp only [popGo] at h
    by_cases hm : pat.matchesPath y.asStr = true
    · rw [if_pos hm] at h
      obtain ⟨hpre, hmm⟩ := Prod.mk.inj (Option.some.inj h)
      subst hpre
      subst hmm
      constructor
      · simp [List.reverse_cons, List.filter_append, List.filter_cons, hm,
          List.reverse_concat, List.reverse_reverse]
      · simp [List.length_reverse]
    · rw [if_neg hm] at h
      obtain ⟨h1, h2⟩ := ih pre m h
      constructor
      · simpa [List.reverse_cons, List.filter_append, List.filter_cons, hm] using h1
      · simp only [List.length_cons]
        omega

theorem popMatch_none (pat : Pattern) (l : List GPath) (h : popMatch pat l = none) :
    l.filter (fun e => pat.matchesPath e.asStr) = [] := by
  rw [List.filter_eq_nil_iff]
  intro a ha
  have := popGo_none_all pat l.reverse h a (List.mem_reverse.mpr ha)
  simp [this]

theorem popMatch_some (pat : Pattern) (l : List GPath) (pre : List GPath) (m : GPath)
    (h : popMatch pat l = some (pre, m)) :
    ((l.filter (fun e => pat.matchesPath e.asStr)).reverse
        = m :: (pre.filter (fun e => pat.matchesPath e.asStr)).reverse)
    ∧ pre.length < l.length := by
  have h2 := popGo_some pat l.reverse pre m h
  rwa [List.reverse_reverse, List.length_reverse] at h2

/-- One `select_from` call on a Wildcard node with saved entries and a
Terminating successor (directory-only off): it pops entries from the back
until one matches, yields it and saves the entries before it; with no
match left it returns none and clears the entries. -/
theorem wildcard_step (fs : Fs) (pat : Pattern) (b : Bool) :
    ∀ (f : Nat) (ents : List GPath) (path : GPath),
    fs.isDir path = true → ents.length < f →
    Selector.selectFrom fs f (.wildcard pat (.terminating b) (some ents)) path false =
      (match popMatch pat ents with
       | none => .ok none (.wildcard pat (.terminating b) none)
       | some (pre, m) => .ok (some m) (.wildcard pat (.terminating b) (some pre))) := by
  intro f
  induction f with
  | zero => intro ents path hd hf; omega
  | succ f' ih =>
    intro ents path hd hf
    rcases List.eq_nil_or_concat ents with rfl | ⟨xs, x, rfl⟩
    · simp [Selector.selectFrom, hd, popMatch, popGo]
    · simp only [List.concat_eq_append] at hf ⊢
      by_cases hm : pat.matchesPath x.asStr = true
      · simp [Selector.selectFrom, hd, List.getLast?_concat, List.dropLast_concat, hm,
          Selector.isTerminating, popMatch, popGo, List.reverse_concat, List.reverse_reverse]
      · have hstep :
            Selector.selectFrom fs (f' + 1)
                (.wildcard pat (.terminating b) (some (xs ++ [x]))) path false
              = Selector.selectFrom fs f'
                  (.wildcard pat (.terminating b) (some xs)) path false := by
          simp [Selector.selectFrom, hd, List.getLast?_concat, List.dropLast_concat, hm]
        rw [hstep, ih xs path hd (by simp at hf; omega)]
        simp [popMatch, popGo, List.reverse_concat, hm]

/-- The first call on a Wildcard node with empty book-keeping behaves like
a call with the directory's listing saved. -/
theorem wildcard_first (fs : Fs) (pat : Pattern) (succ : Selector) (path : GPath)
    (d : Bool) (l : List GPath) (f : Nat)
    (hd : fs.isDir path = true) (hr : fs.readdir path = some l) :
    Selector.selectFrom fs (f + 1) (.wildcard pat succ none) path d
      = Selector.selectFrom fs (f + 1) (.wildcard pat succ (some l)) path d := by
  simp [Selector.selectFrom, hd, hr]

/-- Iterating a single-wildcard chain over saved entries yields exactly
the matching entries, in reverse listing order. -/
theorem wildcard_collect (fs : Fs) (pat : Pattern) (scope : GPath)
    (hd : fs.isDir scope = true) :
    ∀ (n : Nat) (ents : List GPath) (f k : Nat),
    ents.length ≤ n → ents.length < f → ents.length < k →
    collectPaths fs f k ⟨scope, .wildcard pat (.terminating false) (some ents), false⟩
      = some ((ents.filter (fun e => pat.matchesPath e.asStr)).reverse) := by
  intro n
  induction n with
  | zero =>
    intro ents f k h0 hf hk
    have hni : ents = [] := List.length_eq_zero.mp (Nat.le_zero.mp h0)
    subst hni
    cases k with
    | zero => omega
    | succ k' =>
      have hsel := wildcard_step fs pat false f [] scope hd hf
      simp only [popMatch, popGo, List.reverse_nil] at hsel
      simp [collectPaths, Paths.next, hsel]
  | succ n ih =>
    intro ents f k hn hf hk
    have hsel := wildcard_step fs pat false f ents scope hd hf
    cases hp : popMatch pat ents with
    | none =>
      rw [hp] at hsel
      have hfe := popMatch_none pat ents hp
      cases k with
      | zero => omega
      | succ k' => simp [collectPaths, Paths.next, hsel, hfe]
    | some pm =>
      obtain ⟨pre, m⟩ := pm
      rw [hp] at hsel
      obtain ⟨hfilter, hlen⟩ := popMatch_some pat ents pre m hp
      cases k with
      | zero => omega
      | succ k' =>
        have hrec := ih pre f k' (by omega) (by omega) (by omega)
        simp [collectPaths, Paths.next, hsel, hrec, hfilter]

/-! ## Amended claim theorems and witnesses -/

/-- C1 (amended): once `next` returns none the iterator is not permanently
exhausted; the selector state is periodic.  For every chain of Precise
components, any two successive `select_from` calls that both return bring
the chain back to its initial state, so after a none the following calls
replay the earlier yields. -/
theorem c1_amended (lits : List (List Char)) (fs : Fs) (f : Nat) (path : GPath)
    (d : Bool) (r₁ r₂ : Option GPath) (s₁ s₂ : Selector)
    (hf : lits.length < f)
    (h1 : Selector.selectFrom fs f (chainOf lits) path d = .ok r₁ s₁)
    (h2 : Selector.selectFrom fs f s₁ path d = .ok r₂ s₂) :
    s₂ = chainOf lits := by
  obtain ⟨r₁', s₁', r₂', e1, e2⟩ := precise_two_calls lits fs f path d hf
  rw [h1] at e1
  obtain ⟨er, es⟩ := StepRes.ok.inj e1
  subst es
  rw [h2] at e2
  exact (StepRes.ok.inj e2).2

/-- Witness for C1 (amended) on the chain of the single literal `a`. -/
theorem c1_amended_witness :
    ([['a']] : List (List Char)).length < 2 ∧
    Selector.selectFrom fs1 2 (chainOf [['a']]) rootP false
      = .ok (some aP) (.precise ['a'] (.terminating true)) ∧
    Selector.selectFrom fs1 2 (.precise ['a'] (.terminating true)) rootP false
      = .ok none (.precise ['a'] (.terminating false)) ∧
    (.precise ['a'] (.terminating false) : Selector) = chainOf [['a']] :=
  ⟨by decide, by decide, by decide,
    c1_amended [['a']] fs1 2 rootP false (some aP) none
      (.precise ['a'] (.terminating true)) (.precise ['a'] (.terminating false))
      (by decide) (by decide) (by decide)⟩

/-- C2 (amended): in the Wildcard arm with a Terminating successor and the
directory-only flag set, a popped matching entry that is not a directory
makes `select_from` return none immediately, discarding the remaining
entries (the entries field is cleared), instead of skipping to them. -/
theorem c2_amended (fs : Fs) (pat : Pattern) (b : Bool) (rest : List GPath)
    (entry path : GPath) (f : Nat)
    (hdir : fs.isDir path = true)
    (hmatch : pat.matchesPath entry.asStr = true)
    (hentry : fs.isDir entry = false) :
    Selector.selectFrom fs (f + 1)
        (.wildcard pat (.terminating b) (some (rest ++ [entry]))) path true
      = .ok none (.wildcard pat (.terminating b) none) := by
  simp [Selector.selectFrom, hdir, List.getLast?_concat, List.dropLast_concat,
    hmatch, Selector.isTerminating, hentry]

/-- Witness for C2 (amended): the file `f` is popped first while the
directory `d` is still pending. -/
theorem c2_amended_witness :
    fs2.isDir rootP = true ∧ starPat.matchesPath fP.asStr = true ∧
    fs2.isDir fP = false ∧
    Selector.selectFrom fs2 (9 + 1)
        (.wildcard starPat (.terminating false) (some ([dP] ++ [fP]))) rootP true
      = .ok none (.wildcard starPat (.terminating false) none) :=
  ⟨by decide, by decide, by decide,
    c2_amended fs2 starPat false [dP] fP rootP 9 (by decide) (by decide) (by decide)⟩

/-- C3 (amended): only the recursive walker treats a failed directory
listing as an empty listing — `Directories::next` pops the path, pushes no
children (the subtree is skipped), and still yields the popped path with
no error. -/
theorem c3_amended (fs : Fs) (st : List GPath) (p : GPath)
    (h : fs.readdir p = none) :
    Directories.next fs ⟨st ++ [p]⟩ = (some p, ⟨st⟩) := by
  simp [Directories.next, List.getLast?_concat, List.dropLast_concat, h]

/-- Witness for C3 (amended) on the everything-fails filesystem. -/
theorem c3_amended_witness :
    fs3.readdir rootP = none ∧
    Directories.next fs3 ⟨[aP] ++ [rootP]⟩ = (some rootP, ⟨[aP]⟩) :=
  ⟨by decide, c3_amended fs3 [aP] rootP (by decide)⟩

/-- C4 (amended): the compiled regex is anchored at the end of input only:
`matches` is true exactly when some suffix of the string satisfies the
whole pattern.  A match never ignores trailing characters, but it may
ignore leading ones. -/
theorem c4_amended (p : Pattern) (s : List Char) :
    p.matches s = true ↔ ∃ i, matchesEntire p (s.drop i) = true :=
  isMatch_iff_suffix p.re s

/-- C6 (amended): for patterns of at least 4 characters, a `[` whose
closing `]` is not found by the specified scan makes the parser return the
"invalid range pattern" error at the offset of the `[`.  (For shorter
patterns the length guards wrap around and the parser can panic instead,
as the counterexample shows.) -/
theorem c6_amended (chars : List Char) (i : Nat) (toks : List Token) (f : Nat)
    (hlen : 4 ≤ chars.length)
    (hbr : chars.get? i = some '[')
    (hscan : (chars.drop (if chars.get? (i + 1) = some '!' then i + 3 else i + 2)).findIdx?
        (fun x => x = ']') = none) :
    parseGo chars (f + 1) i toks = some (.error ⟨i, invalidRangeMsg⟩) := by
  have hi : i < chars.length := by
    by_contra h
    rw [List.get?_eq_none.mpr (by omega)] at hbr
    exact Option.noConfusion hbr
  simp only [parseGo]
  rw [hbr]
  simp only [reduceIte, reduceCtorEq]
  cases hc1 : chars.get? (i + 1) with
  | none =>
    have hlen1 : chars.length ≤ i + 1 := List.get?_eq_none.mp hc1
    have hw4 : ¬ (i ≤ wsub chars.length 4) := by
      rw [wsub, if_pos (by omega)]; omega
    have hw3 : ¬ (i ≤ wsub chars.length 3) := by
      rw [wsub, if_pos (by omega)]; omega
    simp [hw4, hw3]
  | some c1 =>
    rw [hc1] at hscan
    by_cases hq : c1 = '!'
    · subst hq
      rw [if_pos rfl] at hscan
      by_cases hw : i ≤ wsub chars.length 4
      · have h3 : i + 3 ≤ chars.length := by
          rw [wsub, if_pos (by omega)] at hw; omega
        simp [hw, h3, hscan]
      · simp [hw]
    · rw [if_neg (by simp [hq])] at hscan
      by_cases hw : i ≤ wsub chars.length 3
      · have h2 : i + 2 ≤ chars.length := by
          rw [wsub, if_pos (by omega)] at hw; omega
        simp [hw, h2, hscan, hq]
      · simp [hw, hq]

/-- Witness for C6 (amended) on the pattern `abc[`, whose `[` at offset 3
is reached with the literals `a`, `b`, `c` already tokenized. -/
theorem c6_amended_witness :
    4 ≤ ("abc[".toList).length ∧
    ("abc[".toList).get? 3 = some '[' ∧
    (("abc[".toList).drop
        (if ("abc[".toList).get? (3 + 1) = some '!' then 3 + 3 else 3 + 2)).findIdx?
        (fun x => x = ']') = none ∧
    parseGo ("abc[".toList) (1 + 1) 3 [.char 'a', .char 'b', .char 'c']
      = some (.error ⟨3, invalidRangeMsg⟩) ∧
    Pattern.new "abc[".toList = some (.error ⟨3, invalidRangeMsg⟩) :=
  ⟨by decide, by decide, by decide,
    c6_amended ("abc[".toList) 3 [.char 'a', .char 'b', .char 'c'] 1
      (by decide) (by decide) (by decide),
    by decide⟩

/-- C8 (amended): for a single-wildcard chain (Wildcard over a Terminating
successor, directory-only off) the paths yielded up to the first
end-of-stream are exactly the matching entries of the scope's listing in
reverse order, hence duplicate-free whenever the listing is.  (The
unrestricted claim fails: `..` components alias paths, as the
counterexample shows.) -/
theorem c8_amended (fs : Fs) (pat : Pattern) (scope : GPath) (l : List GPath) (f k : Nat)
    (hd : fs.isDir scope = true) (hr : fs.readdir scope = some l)
    (hf : l.length < f) (hk : l.length < k) :
    collectPaths fs f k ⟨scope, .wildcard pat (.terminating false) none, false⟩
      = some ((l.filter (fun e => pat.matchesPath e.asStr)).reverse)
    ∧ (l.Nodup → ((l.filter (fun e => pat.matchesPath e.asStr)).reverse).Nodup) := by
  constructor
  · cases k with
    | zero => omega
    | succ k' =>
      cases f with
      | zero => omega
      | succ f' =>
        have hE := wildcard_first fs pat (.terminating false) scope false l f' hd hr
        have hcol := wildcard_collect fs pat scope hd l.length l (f' + 1) (k' + 1)
          le_rfl hf hk
        calc collectPaths fs (f' + 1) (k' + 1)
                ⟨scope, .wildcard pat (.terminating false) none, false⟩
            = collectPaths fs (f' + 1) (k' + 1)
                ⟨scope, .wildcard pat (.terminating false) (some l), false⟩ := by
              simp only [collectPaths, Paths.next, hE]
          _ = some ((l.filter (fun e => pat.matchesPath e.asStr)).reverse) := hcol
  · intro hnd
    exact List.nodup_reverse.mpr (List.Nodup.filter _ hnd)

/-- Witness for C8 (amended) on a root listing the single directory `a`. -/
theorem c8_amended_witness :
    fs5.isDir rootP = true ∧ fs5.readdir rootP = some [aP] ∧
    (1 : Nat) < 2 ∧ (1 : Nat) < 2 ∧
    (collectPaths fs5 2 2 ⟨rootP, .wildcard starPat (.terminating false) none, false⟩
        = some (([aP].filter (fun e => starPat.matchesPath e.asStr)).reverse)
      ∧ ([aP].Nodup →
          (([aP].filter (fun e => starPat.matchesPath e.asStr)).reverse).Nodup)) :=
  ⟨by decide, by decide, by decide, by decide,
    c8_amended fs5 starPat rootP [aP] 2 2 (by decide) (by decide) (by decide) (by decide)⟩

/-- C9: for every string `s`, `Pattern::new(Pattern::escape(s))` succeeds
(tokenizing each wrapped special to a one-member class and every other
character to a literal), and the resulting pattern matches `s`. -/
theorem c9_escape_roundtrip (s : List Char) :
    Pattern.new (Pattern.escape s)
      = some (.ok ⟨Pattern.compile (s.map escTokenOf), Pattern.escape s⟩) ∧
    Pattern.matches ⟨Pattern.compile (s.map escTokenOf), Pattern.escape s⟩ s = true := by
  constructor
  · have hp := escape_parse s ((Pattern.escape s).length + 1) 0 (Pattern.escape s) []
      (by simp) (by simp) (by have := escape_length s; omega)
    simp [Pattern.new, Pattern.parse, hp]
  · exact pmatch_isMatch _ _ (escape_pmatch s)
